import Mathlib

/-!
Verification of the Pactus block-chain synchronization engine (`sync` package)
against its natural-language specification. The Go source in `sync/sync.go` is
shallowly embedded: machine integers (`uint32`) are natural numbers reduced
modulo `2^32` where Go arithmetic wraps, fallible calls return `Option`, and
the mutable state touched by each function (peer set, sessions, cache,
counters) is passed and returned explicitly. Collaborator packages whose
sources are not available (message handlers, the peer-set manager, the
`service` bitmask helpers) are modelled from the specification and marked as
such in their doc comments.
-/

namespace Pactus

/-- Modulus of Go `uint32` arithmetic. -/
def U32 : Nat := 2 ^ 32

/-!
## prepareBlocks (sync.go, lines 423-448)

`sync.state.CommittedBlock(h)` is modelled by a function
`committedBlock : Nat → Option Nat` giving the raw encoding (`b.Data`) of the
committed block at height `h`, or `none` when the state has no block there.
The Go function returns either a nil slice (modelled by `none`) or a non-nil,
possibly empty slice of raw encodings (modelled by `some`).
-/

/-- The fetch loop of `prepareBlocks`:
`for h := from; h < from+count; h++ { b := CommittedBlock(h); if b == nil return nil; append(blocks, b.Data) }`.
`n` is the number of remaining iterations (`bound - h` in the caller). -/
def fetchLoop (committedBlock : Nat → Option Nat) : Nat → Nat → Option (List Nat)
  | _, 0 => some []
  | h, n + 1 =>
    match committedBlock h with
    | none => none
    | some d =>
      match fetchLoop committedBlock (h + 1) n with
      | none => none
      | some rest => some (d :: rest)

/-- Shallow embedding of `synchronizer.prepareBlocks(from, count)`.
All of `ourHeight` (`sync.state.LastBlockHeight()`), `fromH` and `count0` are
Go `uint32` values, so sums wrap modulo `2^32`. The loop bound `from+count`
is a `uint32` sum; the loop runs while `h < bound`, i.e. for
`bound - fromH` iterations (none when the wrapped bound is at or below
`fromH`). -/
def prepareBlocks (committedBlock : Nat → Option Nat) (ourHeight fromH count0 : Nat) :
    Option (List Nat) :=
  if fromH > ourHeight then
    none
  else
    let count := if (fromH + count0) % U32 > ourHeight then (ourHeight - fromH + 1) % U32 else count0
    let bound := (fromH + count) % U32
    fetchLoop committedBlock fromH (bound - fromH)

theorem fetchLoop_spec (committedBlock : Nat → Option Nat) :
    ∀ (n h : Nat),
      (fetchLoop committedBlock h n = none ↔ ∃ i, i < n ∧ committedBlock (h + i) = none)
        ∧ (∀ l, fetchLoop committedBlock h n = some l →
            l.length = n ∧ ∀ i, i < n → l.get? i = committedBlock (h + i)) := by
  intro n
  induction n with
  | zero =>
    intro h
    constructor
    · simp [fetchLoop]
    · intro l hl
      simp [fetchLoop] at hl
      subst hl
      simp
  | succ n ih =>
    intro h
    constructor
    · constructor
      · intro hnone
        by_cases hb : committedBlock h = none
        · exact ⟨0, Nat.succ_pos n, by simpa using hb⟩
        · obtain ⟨d, hd⟩ := Option.ne_none_iff_exists'.mp hb
          simp only [fetchLoop, hd] at hnone
          cases hrest : fetchLoop committedBlock (h + 1) n with
          | none =>
            obtain ⟨i, hi, hci⟩ := ((ih (h + 1)).1).mp hrest
            exact ⟨i + 1, by omega, by simpa [Nat.add_comm, Nat.add_left_comm] using hci⟩
          | some rest => simp [hrest] at hnone
      · rintro ⟨i, hi, hci⟩
        cases hb : committedBlock h with
        | none => simp [fetchLoop, hb]
        | some d =>
          simp only [fetchLoop, hb]
          cases i with
          | zero =>
            rw [Nat.add_zero, hb] at hci
            exact absurd hci (by simp)
          | succ j =>
            have : fetchLoop committedBlock (h + 1) n = none := by
              apply ((ih (h + 1)).1).mpr
              exact ⟨j, by omega, by simpa [Nat.add_comm, Nat.add_left_comm] using hci⟩
            simp [this]
    · intro l hl
      cases hb : committedBlock h with
      | none => simp [fetchLoop, hb] at hl
      | some d =>
        simp only [fetchLoop, hb] at hl
        cases hrest : fetchLoop committedBlock (h + 1) n with
        | none => simp [hrest] at hl
        | some rest =>
          simp only [hrest] at hl
          obtain ⟨hlen, hget⟩ := (ih (h + 1)).2 rest hrest
          cases hl
          constructor
          · simp [hlen]
          · intro i hi
            cases i with
            | zero => simpa using hb.symm
            | succ j =>
              have := hget j (by omega)
              simpa [Nat.add_comm, Nat.add_left_comm] using this

/-- Reduction of `prepareBlocks` to its fetch loop when neither `uint32` sum
wraps: the loop runs over exactly `min count0 (ourHeight + 1 - fromH)`
heights starting at `fromH`. -/
theorem prepareBlocks_eq_fetchLoop (committedBlock : Nat → Option Nat)
    (ourHeight fromH count0 : Nat) (hnw : fromH + count0 < U32)
    (hoh : ourHeight + 1 < U32) (hf : fromH ≤ ourHeight) :
    prepareBlocks committedBlock ourHeight fromH count0
      = fetchLoop committedBlock fromH (min count0 (ourHeight + 1 - fromH)) := by
  have h1 : ¬ fromH > ourHeight := by omega
  have hmod : (fromH + count0) % U32 = fromH + count0 := Nat.mod_eq_of_lt hnw
  by_cases h2 : fromH + count0 > ourHeight
  · have hcnt : (ourHeight - fromH + 1) % U32 = ourHeight - fromH + 1 :=
      Nat.mod_eq_of_lt (by omega)
    have hbound : (fromH + (ourHeight - fromH + 1)) % U32 = ourHeight + 1 := by
      rw [Nat.mod_eq_of_lt (by omega)]
      omega
    have hmin : min count0 (ourHeight + 1 - fromH) = ourHeight + 1 - fromH := by omega
    simp only [prepareBlocks, if_neg h1, hmod, if_pos h2, hcnt, hbound, hmin]
  · have hmin : min count0 (ourHeight + 1 - fromH) = count0 := by omega
    simp only [prepareBlocks, if_neg h1, hmod, if_neg h2, hmin]
    congr 1
    omega

/-- C10: when `fromH ≤ ourHeight` and the `uint32` sum `fromH + count0` wraps
below `fromH`, the clamp in `prepareBlocks` does not fire (the wrapped sum is
not above `ourHeight`), the fetch loop runs zero times, and the function
returns an empty but non-nil slice (`some []`) rather than the blocks up to
the tip. -/
theorem prepareBlocks_wrap (committedBlock : Nat → Option Nat)
    (ourHeight fromH count0 : Nat) (hle : fromH ≤ ourHeight)
    (hwrap : (fromH + count0) % U32 < fromH) :
    prepareBlocks committedBlock ourHeight fromH count0 = some [] := by
  have h1 : ¬ fromH > ourHeight := by omega
  have h2 : ¬ (fromH + count0) % U32 > ourHeight := by omega
  have h3 : (fromH + count0) % U32 - fromH = 0 := by omega
  simp only [prepareBlocks, if_neg h1, if_neg h2, h3, fetchLoop]

/-- Witness for C10 at a concrete wrapping input: tip 5, request starting at
height 3 for `2^32 - 1` blocks. -/
theorem prepareBlocks_wrap_witness :
    ((3 : Nat) ≤ 5 ∧ (3 + (U32 - 1)) % U32 < 3)
      ∧ prepareBlocks (fun h => some h) 5 3 (U32 - 1) = some [] :=
  ⟨⟨by decide, by decide⟩, prepareBlocks_wrap (fun h => some h) 5 3 (U32 - 1) (by decide) (by decide)⟩

/-- C4 counterexample: at tip 1, `from = 1`, `count = 2^32 - 1` (a `uint32`
sum that wraps), with committed blocks exactly at heights 0 and 1, the
claimed equivalence `result = nil ↔ (from > tip ∨ some requested height has
no committed block)` fails: height 2 is requested and missing, yet the
function returns a non-nil (empty) slice. -/
theorem prepareBlocks_nil_iff_cex :
    ¬ ((prepareBlocks (fun h => if h ≤ 1 then some h else none) 1 1 (U32 - 1) = none)
        ↔ ((1 : Nat) > 1
            ∨ ∃ i, i < U32 - 1 ∧ (if 1 + i ≤ 1 then some (1 + i) else (none : Option Nat)) = none)) := by
  intro hiff
  have hr : (1 : Nat) > 1
      ∨ ∃ i, i < U32 - 1 ∧ (if 1 + i ≤ 1 then some (1 + i) else (none : Option Nat)) = none := by
    right
    exact ⟨1, by decide, by decide⟩
  exact absurd (hiff.mpr hr) (by decide)

/-- C4 (amended): provided neither `uint32` computation wraps
(`fromH + count0 < 2^32` and `ourHeight + 1 < 2^32`), `prepareBlocks`
returns nil exactly when `fromH` exceeds the tip or some height in the
clamped request range `fromH .. fromH + min count0 (ourHeight + 1 - fromH) - 1`
has no committed block; otherwise it returns the raw encodings of the
committed blocks of that clamped range, in order. -/
theorem prepareBlocks_nil_iff (committedBlock : Nat → Option Nat)
    (ourHeight fromH count0 : Nat) (hnw : fromH + count0 < U32)
    (hoh : ourHeight + 1 < U32) :
    (prepareBlocks committedBlock ourHeight fromH count0 = none
      ↔ (fromH > ourHeight
          ∨ ∃ i, i < min count0 (ourHeight + 1 - fromH) ∧ committedBlock (fromH + i) = none))
    ∧ (∀ l, prepareBlocks committedBlock ourHeight fromH count0 = some l →
        l.length = min count0 (ourHeight + 1 - fromH)
          ∧ ∀ i, i < min count0 (ourHeight + 1 - fromH) → l.get? i = committedBlock (fromH + i)) := by
  by_cases hf : fromH > ourHeight
  · have hres : prepareBlocks committedBlock ourHeight fromH count0 = none := by
      simp only [prepareBlocks, if_pos hf]
    constructor
    · rw [hres]
      simp [hf]
    · intro l hl
      rw [hres] at hl
      exact absurd hl (by simp)
  · have hf' : fromH ≤ ourHeight := by omega
    have hres := prepareBlocks_eq_fetchLoop committedBlock ourHeight fromH count0 hnw hoh hf'
    have hspec := fetchLoop_spec committedBlock (min count0 (ourHeight + 1 - fromH)) fromH
    constructor
    · rw [hres, hspec.1]
      constructor
      · intro h
        exact Or.inr h
      · rintro (h | h)
        · exact absurd h hf
        · exact h
    · intro l hl
      rw [hres] at hl
      exact hspec.2 l hl

/-- Witness for C4 (amended) at tip 3, `from = 2`, `count = 5`: the clamped
range is heights 2 and 3, both present, so the result is their encodings. -/
theorem prepareBlocks_nil_iff_witness :
    ((2 : Nat) + 5 < U32 ∧ (3 : Nat) + 1 < U32)
      ∧ (prepareBlocks (fun h => some (h * 10)) 3 2 5 = none
          ↔ ((2 : Nat) > 3
              ∨ ∃ i, i < min 5 (3 + 1 - 2) ∧ (fun h => some (h * 10)) (2 + i) = none)) :=
  ⟨⟨by decide, by decide⟩,
    (prepareBlocks_nil_iff (fun h => some (h * 10)) 3 2 5 (by decide) (by decide)).1⟩

/-!
## updateBlockchain (sync.go, lines 241-274)

The cache of downloaded blocks (`sync.cache`) is modelled by the finite set
of heights `h` for which `cache.HasBlockInCache(h)` holds; the LRU keys
blocks by height, so the set has no duplicates. The Go loop
`for cache.HasBlockInCache(LastBlockHeight+1) { LastBlockHeight++ }` is
embedded with explicit fuel; `cache.card` steps always suffice because each
step consumes a distinct cached height.
-/

/-- The cursor-advancing loop of `updateBlockchain`, with explicit fuel. -/
def advanceCursor (cache : Finset Nat) : Nat → Nat → Nat
  | 0, h => h
  | fuel + 1, h => if h + 1 ∈ cache then advanceCursor cache fuel (h + 1) else h

/-- State read by `updateBlockchain`: the open-session flag of the peer set,
the chain parameters and state times (in whole seconds, `curTime` already
rounded by `util.RoundNow`), the committed tip, and the cached heights. -/
structure UpdateEnv where
  hasAnyOpenSession : Bool
  blockInterval : Nat
  curTime : Nat
  lastBlockTime : Nat
  lastBlockHeight : Nat
  cache : Finset Nat

/-- Embedding of `numOfBlocks := uint32(diff.Seconds() / blockInterval.Seconds())` where
`diff = curTime - lastBlockTime`; the float division of whole-second
quantities truncates like natural division, and the `uint32` conversion
reduces modulo `2^32`. -/
def numOfBlocks (e : UpdateEnv) : Nat :=
  ((e.curTime - e.lastBlockTime) / e.blockInterval) % U32

/-- Shallow embedding of `synchronizer.updateBlockchain`. The returned value
records the `downloadBlocks` call it makes: `none` when no download starts,
`some (cursor, onlyNodeNetwork)` when it calls
`downloadBlocks(cursor, onlyNodeNetwork)`. `lbi` is the module-level
tunable `LatestBlockInterval`. -/
def updateBlockchain (lbi : Nat) (e : UpdateEnv) : Option (Nat × Bool) :=
  if e.hasAnyOpenSession then
    none
  else if numOfBlocks e ≤ 1 then
    none
  else
    let cursor := advanceCursor e.cache e.cache.card e.lastBlockHeight
    if numOfBlocks e > lbi then
      some (cursor, true)
    else
      some (cursor, false)

/-- With enough fuel (at least the number of cached heights above `h`), the
cursor loop stops exactly at the end of the consecutive cached run above
`h`: every height in `(h, result]` is cached and `result + 1` is not. -/
theorem advanceCursor_spec (cache : Finset Nat) :
    ∀ (fuel h : Nat), (cache.filter (fun k => h < k)).card ≤ fuel →
      h ≤ advanceCursor cache fuel h
        ∧ (∀ k, h < k → k ≤ advanceCursor cache fuel h → k ∈ cache)
        ∧ advanceCursor cache fuel h + 1 ∉ cache := by
  intro fuel
  induction fuel with
  | zero =>
    intro h hcard
    simp only [advanceCursor]
    refine ⟨Nat.le_refl h, ?_, ?_⟩
    · intro k hk1 hk2
      omega
    · intro hmem
      have : h + 1 ∈ cache.filter (fun k => h < k) :=
        Finset.mem_filter.mpr ⟨hmem, by omega⟩
      have : 0 < (cache.filter (fun k => h < k)).card :=
        Finset.card_pos.mpr ⟨h + 1, this⟩
      omega
  | succ fuel ih =>
    intro h hcard
    by_cases hmem : h + 1 ∈ cache
    · have hstep : advanceCursor cache (fuel + 1) h = advanceCursor cache fuel (h + 1) := by
        simp [advanceCursor, hmem]
      have hsub : cache.filter (fun k => h + 1 < k)
          = (cache.filter (fun k => h < k)).erase (h + 1) := by
        ext x
        simp only [Finset.mem_filter, Finset.mem_erase]
        constructor
        · intro ⟨hx, hlt⟩
          exact ⟨by omega, hx, by omega⟩
        · intro ⟨hne, hx, hlt⟩
          exact ⟨hx, by omega⟩
      have hmemf : h + 1 ∈ cache.filter (fun k => h < k) :=
        Finset.mem_filter.mpr ⟨hmem, by omega⟩
      have hcard' : (cache.filter (fun k => h + 1 < k)).card ≤ fuel := by
        rw [hsub, Finset.card_erase_of_mem hmemf]
        omega
      obtain ⟨hle, hall, hnot⟩ := ih (h + 1) hcard'
      rw [hstep]
      refine ⟨by omega, ?_, hnot⟩
      intro k hk1 hk2
      by_cases hk : k = h + 1
      · rw [hk]; exact hmem
      · exact hall k (by omega) hk2
    · have hstep : advanceCursor cache (fuel + 1) h = h := by
        simp [advanceCursor, hmem]
      rw [hstep]
      exact ⟨Nat.le_refl h, fun k hk1 hk2 => by omega, hmem⟩

/-- C1: `updateBlockchain` performs no download when any session is open or
when `numOfBlocks ≤ 1`; otherwise it calls `downloadBlocks` with the cursor
advanced from the committed tip past the consecutive cached run, and with
`onlyNodeNetwork` exactly when `numOfBlocks` exceeds `LatestBlockInterval`. -/
theorem updateBlockchain_spec (lbi : Nat) (e : UpdateEnv) :
    (e.hasAnyOpenSession = true → updateBlockchain lbi e = none)
      ∧ (numOfBlocks e ≤ 1 → updateBlockchain lbi e = none)
      ∧ (e.hasAnyOpenSession = false → 1 < numOfBlocks e →
          ∃ cursor, updateBlockchain lbi e = some (cursor, decide (lbi < numOfBlocks e))
            ∧ e.lastBlockHeight ≤ cursor
            ∧ (∀ k, e.lastBlockHeight < k → k ≤ cursor → k ∈ e.cache)
            ∧ cursor + 1 ∉ e.cache) := by
  refine ⟨?_, ?_, ?_⟩
  · intro hs
    simp [updateBlockchain, hs]
  · intro hn
    by_cases hs : e.hasAnyOpenSession
    · simp [updateBlockchain, hs]
    · simp [updateBlockchain, hs, hn]
  · intro hs hn
    have hcard : (e.cache.filter (fun k => e.lastBlockHeight < k)).card ≤ e.cache.card :=
      Finset.card_filter_le _ _
    obtain ⟨hle, hall, hnot⟩ := advanceCursor_spec e.cache e.cache.card e.lastBlockHeight hcard
    refine ⟨advanceCursor e.cache e.cache.card e.lastBlockHeight, ?_, hle, hall, hnot⟩
    by_cases hl : numOfBlocks e > lbi
    · simp [updateBlockchain, hs, hn, hl, Nat.not_le.mpr hn]
    · simp [updateBlockchain, hs, hl, Nat.not_le.mpr hn, Nat.not_lt.mp hl]

/-- Witness for C1: no open session, 10-second blocks, 100 seconds behind
(10 expected blocks), tip 5, cached heights 6 and 7: the download starts at
cursor 7 with `onlyNodeNetwork = false` for `LatestBlockInterval = 23`. -/
theorem updateBlockchain_spec_witness :
    (UpdateEnv.mk false 10 100 0 5 {6, 7}).hasAnyOpenSession = false
      ∧ 1 < numOfBlocks (UpdateEnv.mk false 10 100 0 5 {6, 7})
      ∧ ∃ cursor,
          updateBlockchain 23 (UpdateEnv.mk false 10 100 0 5 {6, 7})
            = some (cursor, decide (23 < numOfBlocks (UpdateEnv.mk false 10 100 0 5 {6, 7})))
          ∧ (UpdateEnv.mk false 10 100 0 5 {6, 7}).lastBlockHeight ≤ cursor
          ∧ (∀ k, (UpdateEnv.mk false 10 100 0 5 {6, 7}).lastBlockHeight < k → k ≤ cursor →
              k ∈ (UpdateEnv.mk false 10 100 0 5 {6, 7}).cache)
          ∧ cursor + 1 ∉ (UpdateEnv.mk false 10 100 0 5 {6, 7}).cache :=
  ⟨rfl, by decide,
    (updateBlockchain_spec 23 (UpdateEnv.mk false 10 100 0 5 {6, 7})).2.2 rfl (by decide)⟩

/-!
## downloadBlocks (sync.go, lines 348-381)
-/

/-- Peer status codes. The peerset constants file is not under src/; the six
statuses are modelled from the spec (§3, Data model). -/
inductive StatusCode where
  | unknown
  | connected
  | known
  | trusty
  | banned
  | disconnected
deriving DecidableEq

/-- The peer fields read by `downloadBlocks` (sync/peerset/peer.go). -/
structure Peer where
  peerID : Nat
  status : StatusCode
  hasNetworkService : Bool
deriving DecidableEq

/-- Embedding of `Peer.IsKnownOrTrusty` (peer.go):
`p.Status == StatusCodeKnown || p.Status == StatusCodeTrusty`. -/
def Peer.isKnownOrTrusty (p : Peer) : Bool :=
  decide (p.status = StatusCode.known) || decide (p.status = StatusCode.trusty)

/-- Modelled from the spec (§3, §4.1): whether the peer-set session table
holds an open session for `pid` (`PeerSet.HasOpenSession`). Sessions are
pairs of a monotonically assigned session ID and the target peer ID. -/
def hasOpenSession (sessions : List (Nat × Nat)) (pid : Nat) : Bool :=
  sessions.any (fun s => decide (s.2 = pid))

/-- Modelled from the spec (§3, §4.1): `PeerSet.CloseSession(sid)` removes
the session with that ID from the open-session table. -/
def closeSession (sessions : List (Nat × Nat)) (sid : Nat) : List (Nat × Nat) :=
  sessions.filter (fun s => decide (s.1 ≠ sid))

/-- Mutable state threaded through one `downloadBlocks` call: the `uint32`
cursor `from`, the open-session table, the next fresh session ID, the
`BlocksRequest` messages handed to `sendTo` as
`(peer, session ID, from + 1, count)`, and the peers whose connection was
closed. -/
structure DlState where
  fromH : Nat
  sessions : List (Nat × Nat)
  nextSid : Nat
  requests : List (Nat × Nat × Nat × Nat)
  closedConns : List Nat
deriving DecidableEq

/-- The body of the `IteratePeers` closure in `downloadBlocks`. `sendOk p`
models whether `network.SendTo` succeeds for peer `p` (the outcome of the
`sync.sendTo` call, whose bundle for `BlocksRequest` is always produced). -/
def downloadStep (lbi : Nat) (onlyNodeNetwork : Bool) (sendOk : Nat → Bool)
    (st : DlState) (p : Peer) : DlState :=
  if hasOpenSession st.sessions p.peerID then
    st
  else if !p.isKnownOrTrusty then
    st
  else if onlyNodeNetwork && !p.hasNetworkService then
    if onlyNodeNetwork then { st with closedConns := st.closedConns ++ [p.peerID] } else st
  else
    let sid := st.nextSid
    let sessions1 := st.sessions ++ [(sid, p.peerID)]
    let req := (p.peerID, sid, (st.fromH + 1) % U32, lbi)
    if sendOk p.peerID then
      { fromH := (st.fromH + lbi) % U32
        sessions := sessions1
        nextSid := sid + 1
        requests := st.requests ++ [req]
        closedConns := st.closedConns }
    else
      { st with
        sessions := closeSession sessions1 sid
        nextSid := sid + 1
        requests := st.requests ++ [req] }

/-- Shallow embedding of `synchronizer.downloadBlocks(from, onlyNodeNetwork)`:
`IteratePeers` applies the closure to every peer of the set in turn. `lbi` is
the module-level tunable `LatestBlockInterval`. -/
def downloadBlocks (lbi : Nat) (onlyNodeNetwork : Bool) (sendOk : Nat → Bool)
    (peers : List Peer) (fromH : Nat) (sessions0 : List (Nat × Nat)) (nextSid0 : Nat) :
    DlState :=
  peers.foldl (downloadStep lbi onlyNodeNetwork sendOk)
    (DlState.mk fromH sessions0 nextSid0 [] [])

/-- Session IDs in the open-session table are below the next fresh ID; the
peer-set allocator guarantees this (monotone counter, spec §4.1). -/
def SidsBelow (st : DlState) : Prop :=
  ∀ s ∈ st.sessions, s.1 < st.nextSid

/-- What one `downloadBlocks` iteration does to one peer, as the claim
states it: peers with an open session and peers that are not Known/Trusty
are skipped untouched; when `onlyNodeNetwork` holds, peers without the
Network service are skipped and their connection closed; every remaining
peer gets a fresh session and a
`BlocksRequest{session, from + 1, LatestBlockInterval}`; on send success the
cursor advances by `LatestBlockInterval` and the session stays open, on send
failure the cursor is unchanged and no session remains open for that peer. -/
def DownloadStepSpec (lbi : Nat) (onn : Bool) (sendOk : Nat → Bool)
    (st : DlState) (p : Peer) : Prop :=
  (hasOpenSession st.sessions p.peerID = true → downloadStep lbi onn sendOk st p = st)
    ∧ (hasOpenSession st.sessions p.peerID = false → p.isKnownOrTrusty = false →
        downloadStep lbi onn sendOk st p = st)
    ∧ (hasOpenSession st.sessions p.peerID = false → p.isKnownOrTrusty = true →
        onn = true → p.hasNetworkService = false →
        downloadStep lbi onn sendOk st p
          = { st with closedConns := st.closedConns ++ [p.peerID] })
    ∧ (hasOpenSession st.sessions p.peerID = false → p.isKnownOrTrusty = true →
        (onn = false ∨ p.hasNetworkService = true) →
        (downloadStep lbi onn sendOk st p).requests
            = st.requests ++ [(p.peerID, st.nextSid, (st.fromH + 1) % U32, lbi)]
          ∧ (downloadStep lbi onn sendOk st p).nextSid = st.nextSid + 1
          ∧ (sendOk p.peerID = true →
              (downloadStep lbi onn sendOk st p).fromH = (st.fromH + lbi) % U32
                ∧ (downloadStep lbi onn sendOk st p).sessions
                    = st.sessions ++ [(st.nextSid, p.peerID)]
                ∧ hasOpenSession (downloadStep lbi onn sendOk st p).sessions p.peerID = true)
          ∧ (sendOk p.peerID = false → SidsBelow st →
              (downloadStep lbi onn sendOk st p).fromH = st.fromH
                ∧ (downloadStep lbi onn sendOk st p).sessions = st.sessions
                ∧ hasOpenSession (downloadStep lbi onn sendOk st p).sessions p.peerID = false))

/-- Closing the freshly allocated session undoes opening it, because every
previously open session has a strictly smaller ID. -/
theorem closeSession_fresh (sessions : List (Nat × Nat)) (sid pid : Nat)
    (h : ∀ s ∈ sessions, s.1 < sid) :
    closeSession (sessions ++ [(sid, pid)]) sid = sessions := by
  unfold closeSession
  rw [List.filter_append]
  have h1 : sessions.filter (fun s => decide (s.1 ≠ sid)) = sessions := by
    apply List.filter_eq_self.mpr
    intro s hs
    have := h s hs
    simp
    omega
  have h2 : [(sid, pid)].filter (fun s => decide (s.1 ≠ sid)) = [] := by
    simp
  rw [h1, h2, List.append_nil]

/-- The `downloadBlocks` iteration on an eligible peer with a successful
send: the branch taken, as one record equation. -/
theorem downloadStep_send_ok (lbi : Nat) (onn : Bool) (sendOk : Nat → Bool)
    (st : DlState) (p : Peer) (hopen : hasOpenSession st.sessions p.peerID = false)
    (hkt : p.isKnownOrTrusty = true) (hcond : (onn && !p.hasNetworkService) = false)
    (hsend : sendOk p.peerID = true) :
    downloadStep lbi onn sendOk st p
      = { fromH := (st.fromH + lbi) % U32
          sessions := st.sessions ++ [(st.nextSid, p.peerID)]
          nextSid := st.nextSid + 1
          requests := st.requests ++ [(p.peerID, st.nextSid, (st.fromH + 1) % U32, lbi)]
          closedConns := st.closedConns } := by
  simp [downloadStep, hopen, hkt, hcond, hsend]

/-- The `downloadBlocks` iteration on an eligible peer with a failed send:
the branch taken, as one record equation. -/
theorem downloadStep_send_fail (lbi : Nat) (onn : Bool) (sendOk : Nat → Bool)
    (st : DlState) (p : Peer) (hopen : hasOpenSession st.sessions p.peerID = false)
    (hkt : p.isKnownOrTrusty = true) (hcond : (onn && !p.hasNetworkService) = false)
    (hsend : sendOk p.peerID = false) :
    downloadStep lbi onn sendOk st p
      = { st with
          sessions := closeSession (st.sessions ++ [(st.nextSid, p.peerID)]) st.nextSid
          nextSid := st.nextSid + 1
          requests := st.requests ++ [(p.peerID, st.nextSid, (st.fromH + 1) % U32, lbi)] } := by
  simp [downloadStep, hopen, hkt, hcond, hsend]

/-- Per-peer behaviour of one `downloadBlocks` iteration. -/
theorem downloadStep_cases (lbi : Nat) (onn : Bool) (sendOk : Nat → Bool)
    (st : DlState) (p : Peer) : DownloadStepSpec lbi onn sendOk st p := by
  refine ⟨?_, ?_, ?_, ?_⟩
  · intro hopen
    simp [downloadStep, hopen]
  · intro hopen hkt
    simp [downloadStep, hopen, hkt]
  · intro hopen hkt honn hnet
    simp [downloadStep, hopen, hkt, honn, hnet]
  · intro hopen hkt hrem
    have hcond : (onn && !p.hasNetworkService) = false := by
      rcases hrem with h | h <;> simp [h]
    by_cases hsend : sendOk p.peerID = true
    · have heq := downloadStep_send_ok lbi onn sendOk st p hopen hkt hcond hsend
      rw [heq]
      refine ⟨rfl, rfl, fun _ => ⟨rfl, rfl, ?_⟩, fun hfail _ => absurd hsend (by simp [hfail])⟩
      simp [hasOpenSession]
    · have hsend' : sendOk p.peerID = false := Bool.eq_false_iff.mpr hsend
      have heq := downloadStep_send_fail lbi onn sendOk st p hopen hkt hcond hsend'
      rw [heq]
      refine ⟨rfl, rfl, fun hok => absurd hok hsend, fun _ hwf => ?_⟩
      have hfresh : closeSession (st.sessions ++ [(st.nextSid, p.peerID)]) st.nextSid
          = st.sessions := closeSession_fresh st.sessions st.nextSid p.peerID hwf
      exact ⟨rfl, by simp [hfresh], by simp [hfresh, hopen]⟩

/-- One iteration preserves the session-ID bound. -/
theorem downloadStep_sidsBelow (lbi : Nat) (onn : Bool) (sendOk : Nat → Bool)
    (st : DlState) (p : Peer) (h : SidsBelow st) :
    SidsBelow (downloadStep lbi onn sendOk st p) := by
  by_cases hopen : hasOpenSession st.sessions p.peerID = true
  · have : downloadStep lbi onn sendOk st p = st := by simp [downloadStep, hopen]
    rw [this]
    exact h
  · have hopen' : hasOpenSession st.sessions p.peerID = false := Bool.eq_false_iff.mpr hopen
    by_cases hkt : p.isKnownOrTrusty = true
    · by_cases hcond : (onn && !p.hasNetworkService) = true
      · have : downloadStep lbi onn sendOk st p
            = if onn then { st with closedConns := st.closedConns ++ [p.peerID] } else st := by
          simp [downloadStep, hopen', hkt, hcond]
        rw [this]
        by_cases honn : onn
        · simp only [honn, if_true]
          exact h
        · simp only [honn, if_false, Bool.false_eq_true]
          exact h
      · have hcond' : (onn && !p.hasNetworkService) = false := Bool.eq_false_iff.mpr hcond
        by_cases hsend : sendOk p.peerID = true
        · rw [downloadStep_send_ok lbi onn sendOk st p hopen' hkt hcond' hsend]
          intro s hs
          have hs' : s ∈ st.sessions ++ [(st.nextSid, p.peerID)] := hs
          show s.1 < st.nextSid + 1
          rcases List.mem_append.mp hs' with hmem | hmem
          · exact Nat.lt_succ_of_lt (h s hmem)
          · rw [List.mem_singleton] at hmem
            rw [hmem]
            exact Nat.lt_succ_self _
        · have hsend' : sendOk p.peerID = false := Bool.eq_false_iff.mpr hsend
          rw [downloadStep_send_fail lbi onn sendOk st p hopen' hkt hcond' hsend']
          intro s hs
          have hs' : s ∈ closeSession (st.sessions ++ [(st.nextSid, p.peerID)]) st.nextSid := hs
          have hs'' : s ∈ st.sessions ++ [(st.nextSid, p.peerID)] :=
            List.mem_of_mem_filter hs'
          show s.1 < st.nextSid + 1
          rcases List.mem_append.mp hs'' with hmem | hmem
          · exact Nat.lt_succ_of_lt (h s hmem)
          · rw [List.mem_singleton] at hmem
            rw [hmem]
            exact Nat.lt_succ_self _
    · have hkt' : p.isKnownOrTrusty = false := Bool.eq_false_iff.mpr hkt
      have : downloadStep lbi onn sendOk st p = st := by simp [downloadStep, hopen', hkt']
      rw [this]
      exact h

/-- Folding iterations preserves the session-ID bound. -/
theorem foldl_downloadStep_sidsBelow (lbi : Nat) (onn : Bool) (sendOk : Nat → Bool) :
    ∀ (peers : List Peer) (st : DlState), SidsBelow st →
      SidsBelow (peers.foldl (downloadStep lbi onn sendOk) st) := by
  intro peers
  induction peers with
  | nil => intro st h; simpa
  | cons p rest ih =>
    intro st h
    exact ih _ (downloadStep_sidsBelow lbi onn sendOk st p h)

/-- C2: in every `downloadBlocks(from, onlyNodeNetwork)` call starting from a
well-formed session table, the fold decomposes around any iterated peer, and
the iteration on that peer behaves as specified: open-session and
non-Known/Trusty peers are skipped, Network-less peers are skipped with their
connection closed when `onlyNodeNetwork` holds, and each remaining peer gets
a fresh session and a `BlocksRequest{sid, from+1, LatestBlockInterval}`, the
cursor advancing by `LatestBlockInterval` on send success and the fresh
session being closed again on send failure. -/
theorem downloadBlocks_spec (lbi : Nat) (onn : Bool) (sendOk : Nat → Bool)
    (peers : List Peer) (fromH : Nat) (sessions0 : List (Nat × Nat)) (nextSid0 : Nat)
    (hwf : SidsBelow (DlState.mk fromH sessions0 nextSid0 [] []))
    (i : Nat) (hi : i < peers.length) :
    downloadBlocks lbi onn sendOk peers fromH sessions0 nextSid0
        = (peers.drop i).foldl (downloadStep lbi onn sendOk)
            ((peers.take i).foldl (downloadStep lbi onn sendOk)
              (DlState.mk fromH sessions0 nextSid0 [] []))
      ∧ DownloadStepSpec lbi onn sendOk
          ((peers.take i).foldl (downloadStep lbi onn sendOk)
            (DlState.mk fromH sessions0 nextSid0 [] []))
          (peers.get ⟨i, hi⟩)
      ∧ SidsBelow ((peers.take i).foldl (downloadStep lbi onn sendOk)
          (DlState.mk fromH sessions0 nextSid0 [] [])) := by
  refine ⟨?_, ?_, ?_⟩
  · unfold downloadBlocks
    conv_lhs => rw [← List.take_append_drop i peers]
    rw [List.foldl_append]
  · exact downloadStep_cases lbi onn sendOk _ _
  · exact foldl_downloadStep_sidsBelow lbi onn sendOk _ _ hwf

/-- Witness for C2: a single Known peer with the Network service, empty
session table, successful sends. -/
theorem downloadBlocks_spec_witness :
    SidsBelow (DlState.mk 0 [] 0 [] [])
      ∧ 0 < [Peer.mk 7 StatusCode.known true].length
      ∧ DownloadStepSpec 23 false (fun _ => true) (DlState.mk 0 [] 0 [] [])
          (Peer.mk 7 StatusCode.known true) :=
  ⟨fun s hs => absurd hs (List.not_mem_nil s), by decide,
    (downloadBlocks_spec 23 false (fun _ => true) [Peer.mk 7 StatusCode.known true]
      0 [] 0 (fun s hs => absurd hs (List.not_mem_nil s)) 0 (by decide)).2.1⟩

/-!
## tryCommitBlocks (sync.go, lines 383-421)

Blocks and certificates are modelled by the fields `tryCommitBlocks` reads:
a block carries its transactions (each with its stripped-public-key flag and
signer address) and the outcome of `BasicCheck`; a certificate carries the
outcome of its `BasicCheck`. `state.PublicKey(addr)` is a function to
`Option` (`none` is a resolution error), and `state.CommitBlock` at height
`h` succeeds exactly when `commitOk h`. The unbounded Go loop is embedded
with explicit fuel; the theorem assumes some height within fuel distance is
missing from the cache, which the bounded cache guarantees.
-/

/-- A transaction, as read by `tryCommitBlocks`. -/
structure Trx where
  isPublicKeyStriped : Bool
  signer : Nat
deriving DecidableEq

/-- A block, as read by `tryCommitBlocks`. -/
structure Blk where
  trxs : List Trx
  basicCheckOk : Bool
deriving DecidableEq

/-- A certificate, as read by `tryCommitBlocks`. -/
structure Cert where
  basicCheckOk : Bool
deriving DecidableEq

/-- The errors `tryCommitBlocks` can return, tagged with where they arose. -/
inductive CommitError where
  | pubKeyErr (addr : Nat)
  | invalidBlock (height : Nat)
  | invalidCert (height : Nat)
  | commitFailed (height : Nat)
deriving DecidableEq

/-- The collaborators of `tryCommitBlocks`: the cache
(`GetBlock`/`GetCertificate` by height) and the state facade
(`PublicKey`, `CommitBlock`). -/
structure CommitEnv where
  getBlock : Nat → Option Blk
  getCert : Nat → Option Cert
  pubKey : Nat → Option Nat
  commitOk : Nat → Bool

/-- The transaction loop of `tryCommitBlocks`: for each transaction with a
stripped public key, resolve it via `state.PublicKey`; the first failing
signer aborts with its address (`SetPublicKey` itself has no observable
effect here). -/
def resolvePublicKeys (pubKey : Nat → Option Nat) : List Trx → Option Nat
  | [] => none
  | t :: ts =>
    if t.isPublicKeyStriped then
      match pubKey t.signer with
      | none => some t.signer
      | some _ => resolvePublicKeys pubKey ts
    else
      resolvePublicKeys pubKey ts

/-- The first failing step of `tryCommitBlocks` at a height whose block and
certificate are both cached, in source order: public-key resolution, block
basic check, certificate basic check, state commit; `none` when the height
commits cleanly. -/
def heightError (env : CommitEnv) (blk : Blk) (cert : Cert) (h : Nat) : Option CommitError :=
  match resolvePublicKeys env.pubKey blk.trxs with
  | some addr => some (CommitError.pubKeyErr addr)
  | none =>
    if blk.basicCheckOk = false then some (CommitError.invalidBlock h)
    else if cert.basicCheckOk = false then some (CommitError.invalidCert h)
    else if env.commitOk h = false then some (CommitError.commitFailed h)
    else none

/-- Shallow embedding of `synchronizer.tryCommitBlocks`. The result pairs
the heights committed to the state (in commit order) with the returned
error (`none` models the Go `nil` return). The caller starts the loop at
`state.LastBlockHeight() + 1`. -/
def tryCommitBlocks (env : CommitEnv) : Nat → Nat → List Nat × Option CommitError
  | 0, _ => ([], none)
  | fuel + 1, height =>
    match env.getBlock height with
    | none => ([], none)
    | some blk =>
      match env.getCert height with
      | none => ([], none)
      | some cert =>
        match resolvePublicKeys env.pubKey blk.trxs with
        | some addr => ([], some (CommitError.pubKeyErr addr))
        | none =>
          if blk.basicCheckOk = false then
            ([], some (CommitError.invalidBlock height))
          else if cert.basicCheckOk = false then
            ([], some (CommitError.invalidCert height))
          else if env.commitOk height = false then
            ([], some (CommitError.commitFailed height))
          else
            let rest := tryCommitBlocks env fuel (height + 1)
            (height :: rest.1, rest.2)

/-- The commit pump, characterized from any starting height: the committed
heights are a consecutive run from the start, each fully checked and
cleanly committed; a `none` return means the cache lacks the next block or
certificate; an error return is exactly the first failing step at the first
non-committed height. -/
theorem tryCommitBlocks_go (env : CommitEnv) :
    ∀ (fuel start : Nat),
      (∃ n, n < fuel ∧ (env.getBlock (start + n) = none ∨ env.getCert (start + n) = none)) →
      ∃ k, (tryCommitBlocks env fuel start).1 = List.range' start k
        ∧ (∀ h ∈ List.range' start k, ∃ blk cert,
            env.getBlock h = some blk ∧ env.getCert h = some cert
              ∧ heightError env blk cert h = none)
        ∧ ((tryCommitBlocks env fuel start).2 = none →
            env.getBlock (start + k) = none ∨ env.getCert (start + k) = none)
        ∧ (∀ e, (tryCommitBlocks env fuel start).2 = some e →
            ∃ blk cert, env.getBlock (start + k) = some blk
              ∧ env.getCert (start + k) = some cert
              ∧ heightError env blk cert (start + k) = some e) := by
  intro fuel
  induction fuel with
  | zero =>
    intro start hmiss
    obtain ⟨n, hn, _⟩ := hmiss
    omega
  | succ fuel ih =>
    intro start hmiss
    cases hblk : env.getBlock start with
    | none =>
      refine ⟨0, by simp [tryCommitBlocks, hblk], by simp, ?_, ?_⟩
      · intro _
        exact Or.inl (by simpa using hblk)
      · intro e he
        simp [tryCommitBlocks, hblk] at he
    | some blk =>
      cases hcert : env.getCert start with
      | none =>
        refine ⟨0, by simp [tryCommitBlocks, hblk, hcert], by simp, ?_, ?_⟩
        · intro _
          exact Or.inr (by simpa using hcert)
        · intro e he
          simp [tryCommitBlocks, hblk, hcert] at he
      | some cert =>
        cases hres : resolvePublicKeys env.pubKey blk.trxs with
        | some addr =>
          refine ⟨0, by simp [tryCommitBlocks, hblk, hcert, hres], by simp, ?_, ?_⟩
          · intro hnone
            simp [tryCommitBlocks, hblk, hcert, hres] at hnone
          · intro e he
            simp only [tryCommitBlocks, hblk, hcert, hres] at he
            refine ⟨blk, cert, by simpa using hblk, by simpa using hcert, ?_⟩
            simp only [heightError, hres]
            simpa using he
        | none =>
          by_cases hbc : blk.basicCheckOk = false
          · refine ⟨0, by simp [tryCommitBlocks, hblk, hcert, hres, hbc], by simp, ?_, ?_⟩
            · intro hnone
              simp [tryCommitBlocks, hblk, hcert, hres, hbc] at hnone
            · intro e he
              simp only [tryCommitBlocks, hblk, hcert, hres, if_pos hbc] at he
              refine ⟨blk, cert, by simpa using hblk, by simpa using hcert, ?_⟩
              simp only [heightError, hres, if_pos hbc]
              simpa using he
          · by_cases hcc : cert.basicCheckOk = false
            · refine ⟨0, by simp [tryCommitBlocks, hblk, hcert, hres, hbc, hcc], by simp, ?_, ?_⟩
              · intro hnone
                simp [tryCommitBlocks, hblk, hcert, hres, hbc, hcc] at hnone
              · intro e he
                simp only [tryCommitBlocks, hblk, hcert, hres, if_neg hbc, if_pos hcc] at he
                refine ⟨blk, cert, by simpa using hblk, by simpa using hcert, ?_⟩
                simp only [heightError, hres, if_neg hbc, if_pos hcc]
                simpa using he
            · by_cases hco : env.commitOk start = false
              · refine ⟨0, by simp [tryCommitBlocks, hblk, hcert, hres, hbc, hcc, hco],
                  by simp, ?_, ?_⟩
                · intro hnone
                  simp [tryCommitBlocks, hblk, hcert, hres, hbc, hcc, hco] at hnone
                · intro e he
                  simp only [tryCommitBlocks, hblk, hcert, hres, if_neg hbc, if_neg hcc,
                    if_pos hco] at he
                  refine ⟨blk, cert, by simpa using hblk, by simpa using hcert, ?_⟩
                  simp only [heightError, hres, if_neg hbc, if_neg hcc]
                  simpa [hco] using he
              · have hstep : tryCommitBlocks env (fuel + 1) start
                    = (start :: (tryCommitBlocks env fuel (start + 1)).1,
                        (tryCommitBlocks env fuel (start + 1)).2) := by
                  simp [tryCommitBlocks, hblk, hcert, hres, hbc, hcc, hco]
                have hmiss' : ∃ n, n < fuel
                    ∧ (env.getBlock (start + 1 + n) = none ∨ env.getCert (start + 1 + n) = none) := by
                  obtain ⟨n, hn, hm⟩ := hmiss
                  cases n with
                  | zero =>
                    rw [Nat.add_zero] at hm
                    rcases hm with hm | hm
                    · rw [hblk] at hm
                      exact absurd hm (by simp)
                    · rw [hcert] at hm
                      exact absurd hm (by simp)
                  | succ m =>
                    refine ⟨m, by omega, ?_⟩
                    have : start + 1 + m = start + (m + 1) := by omega
                    rw [this]
                    exact hm
                obtain ⟨k, hrun, hall, hnone, hsome⟩ := ih (start + 1) hmiss'
                refine ⟨k + 1, ?_, ?_, ?_, ?_⟩
                · rw [hstep, List.range'_succ]
                  simpa using hrun
                · intro h hh
                  rw [List.range'_succ] at hh
                  rcases List.mem_cons.mp hh with hh | hh
                  · subst hh
                    refine ⟨blk, cert, hblk, hcert, ?_⟩
                    simp [heightError, hres, hbc, hcc, hco]
                  · exact hall h hh
                · intro hn2
                  rw [hstep] at hn2
                  have : start + (k + 1) = start + 1 + k := by omega
                  rw [this]
                  exact hnone (by simpa using hn2)
                · intro e he
                  rw [hstep] at he
                  have : start + (k + 1) = start + 1 + k := by omega
                  rw [this]
                  exact hsome e (by simpa using he)

/-- C3: starting at `local_height + 1`, `tryCommitBlocks` commits a
consecutive run of heights, each only while the cache holds both the block
and the certificate and every check and the state commit succeed; it stops
at the first cache gap (returning no error) or at the first error from
public-key resolution, a basic check, or `CommitBlock`, returning exactly
that error to its caller. -/
theorem tryCommitBlocks_spec (env : CommitEnv) (fuel lastBlockHeight : Nat)
    (hmiss : ∃ n, n < fuel
      ∧ (env.getBlock (lastBlockHeight + 1 + n) = none
          ∨ env.getCert (lastBlockHeight + 1 + n) = none)) :
    ∃ k, (tryCommitBlocks env fuel (lastBlockHeight + 1)).1
          = List.range' (lastBlockHeight + 1) k
      ∧ (∀ h ∈ List.range' (lastBlockHeight + 1) k, ∃ blk cert,
          env.getBlock h = some blk ∧ env.getCert h = some cert
            ∧ heightError env blk cert h = none)
      ∧ ((tryCommitBlocks env fuel (lastBlockHeight + 1)).2 = none →
          env.getBlock (lastBlockHeight + 1 + k) = none
            ∨ env.getCert (lastBlockHeight + 1 + k) = none)
      ∧ (∀ e, (tryCommitBlocks env fuel (lastBlockHeight + 1)).2 = some e →
          ∃ blk cert, env.getBlock (lastBlockHeight + 1 + k) = some blk
            ∧ env.getCert (lastBlockHeight + 1 + k) = some cert
            ∧ heightError env blk cert (lastBlockHeight + 1 + k) = some e) :=
  tryCommitBlocks_go env fuel (lastBlockHeight + 1) hmiss

/-- Witness for C3: blocks and certificates cached at heights 1 and 2 only,
all checks and commits succeeding, starting above tip 0. -/
theorem tryCommitBlocks_spec_witness :
    (∃ n, n < 5
      ∧ ((CommitEnv.mk (fun h => if h ≤ 2 then some (Blk.mk [] true) else none)
            (fun h => if h ≤ 2 then some (Cert.mk true) else none)
            (fun _ => some 0) (fun _ => true)).getBlock (0 + 1 + n) = none
          ∨ (CommitEnv.mk (fun h => if h ≤ 2 then some (Blk.mk [] true) else none)
              (fun h => if h ≤ 2 then some (Cert.mk true) else none)
              (fun _ => some 0) (fun _ => true)).getCert (0 + 1 + n) = none))
      ∧ ∃ k, (tryCommitBlocks (CommitEnv.mk (fun h => if h ≤ 2 then some (Blk.mk [] true) else none)
            (fun h => if h ≤ 2 then some (Cert.mk true) else none)
            (fun _ => some 0) (fun _ => true)) 5 (0 + 1)).1 = List.range' (0 + 1) k
          ∧ (∀ h ∈ List.range' (0 + 1) k, ∃ blk cert,
              (CommitEnv.mk (fun h => if h ≤ 2 then some (Blk.mk [] true) else none)
                (fun h => if h ≤ 2 then some (Cert.mk true) else none)
                (fun _ => some 0) (fun _ => true)).getBlock h = some blk
                ∧ (CommitEnv.mk (fun h => if h ≤ 2 then some (Blk.mk [] true) else none)
                    (fun h => if h ≤ 2 then some (Cert.mk true) else none)
                    (fun _ => some 0) (fun _ => true)).getCert h = some cert
                ∧ heightError (CommitEnv.mk (fun h => if h ≤ 2 then some (Blk.mk [] true) else none)
                    (fun h => if h ≤ 2 then some (Cert.mk true) else none)
                    (fun _ => some 0) (fun _ => true)) blk cert h = none)
          ∧ ((tryCommitBlocks (CommitEnv.mk (fun h => if h ≤ 2 then some (Blk.mk [] true) else none)
                (fun h => if h ≤ 2 then some (Cert.mk true) else none)
                (fun _ => some 0) (fun _ => true)) 5 (0 + 1)).2 = none →
              (CommitEnv.mk (fun h => if h ≤ 2 then some (Blk.mk [] true) else none)
                (fun h => if h ≤ 2 then some (Cert.mk true) else none)
                (fun _ => some 0) (fun _ => true)).getBlock (0 + 1 + k) = none
                ∨ (CommitEnv.mk (fun h => if h ≤ 2 then some (Blk.mk [] true) else none)
                    (fun h => if h ≤ 2 then some (Cert.mk true) else none)
                    (fun _ => some 0) (fun _ => true)).getCert (0 + 1 + k) = none)
          ∧ (∀ e, (tryCommitBlocks (CommitEnv.mk (fun h => if h ≤ 2 then some (Blk.mk [] true) else none)
                (fun h => if h ≤ 2 then some (Cert.mk true) else none)
                (fun _ => some 0) (fun _ => true)) 5 (0 + 1)).2 = some e →
              ∃ blk cert, (CommitEnv.mk (fun h => if h ≤ 2 then some (Blk.mk [] true) else none)
                  (fun h => if h ≤ 2 then some (Cert.mk true) else none)
                  (fun _ => some 0) (fun _ => true)).getBlock (0 + 1 + k) = some blk
                ∧ (CommitEnv.mk (fun h => if h ≤ 2 then some (Blk.mk [] true) else none)
                    (fun h => if h ≤ 2 then some (Cert.mk true) else none)
                    (fun _ => some 0) (fun _ => true)).getCert (0 + 1 + k) = some cert
                ∧ heightError (CommitEnv.mk (fun h => if h ≤ 2 then some (Blk.mk [] true) else none)
                    (fun h => if h ≤ 2 then some (Cert.mk true) else none)
                    (fun _ => some 0) (fun _ => true)) blk cert (0 + 1 + k) = some e) :=
  ⟨⟨2, by decide, Or.inl (by decide)⟩,
    tryCommitBlocks_spec
      (CommitEnv.mk (fun h => if h ≤ 2 then some (Blk.mk [] true) else none)
        (fun h => if h ≤ 2 then some (Cert.mk true) else none)
        (fun _ => some 0) (fun _ => true)) 5 0
      ⟨2, by decide, Or.inl (by decide)⟩⟩

/-!
## prepareBundle, sendTo, broadcast (sync.go, lines 276-333)

The bundle flag constants and the handler `PrepareBundle` implementations
are not under src/; the flag bitmask is modelled as a record of the five
flag bits named in the spec (§6: carrier `CarrierLibP2P`, network
`Mainnet`/`Testnet`, mode `Broadcasted`/`Handshaking`), `util.SetFlag`
becomes setting the corresponding field.
-/

/-- The message types registered in `NewSynchronizer` (sync.go lines 80-92). -/
inductive MsgType where
  | hello
  | helloAck
  | transactions
  | queryProposal
  | proposal
  | queryVotes
  | vote
  | blockAnnounce
  | blocksRequest
  | blocksResponse
deriving DecidableEq

/-- The chain type `genesis.ChainType` as read by `prepareBundle`. -/
inductive ChainType where
  | mainnet
  | testnet
  | localnet
deriving DecidableEq

/-- The bundle flag bits (spec §6). -/
structure BundleFlags where
  carrierLibP2P : Bool := false
  networkMainnet : Bool := false
  networkTestnet : Bool := false
  broadcasted : Bool := false
  handshaking : Bool := false
deriving DecidableEq

/-- A framed outbound bundle: its message type and flag bits. -/
structure Bundle where
  msgType : MsgType
  flags : BundleFlags
deriving DecidableEq

/-- Whether a message type belongs to the handshake (`Hello`/`HelloAck`). -/
def MsgType.isHandshake : MsgType → Bool
  | .hello => true
  | .helloAck => true
  | _ => false

/-- Modelled from the spec (§4.4, §6): `handler.PrepareBundle(msg)` wraps
the outbound message in a bundle and sets type-specific flags; the only
type-specific flag is `Handshaking`, set by the hello and hello-ack
handlers. The handler table always has an entry for these ten types, and
suppression (a nil bundle) does not occur on the paths modelled here. -/
def handlerPrepareBundle (t : MsgType) : Option Bundle :=
  some { msgType := t, flags := { handshaking := t.isHandshake } }

/-- Shallow embedding of `synchronizer.prepareBundle`: look the handler up,
let it wrap the message, then set the carrier flag and the network flag of
the configured chain type — none for the localnet default branch. -/
def prepareBundle (chain : ChainType) (t : MsgType) : Option Bundle :=
  match handlerPrepareBundle t with
  | none => none
  | some bdl =>
    let f1 := { bdl.flags with carrierLibP2P := true }
    let f2 :=
      match chain with
      | ChainType.mainnet => { f1 with networkMainnet := true }
      | ChainType.testnet => { f1 with networkTestnet := true }
      | ChainType.localnet => f1
    some { bdl with flags := f2 }

/-- Shallow embedding of `synchronizer.broadcast`: frame via `prepareBundle`
and additionally set the `Broadcasted` flag. -/
def broadcastBundle (chain : ChainType) (t : MsgType) : Option Bundle :=
  match prepareBundle chain t with
  | none => none
  | some bdl => some { bdl with flags := { bdl.flags with broadcasted := true } }

/-- The outbound bundle a synchronizer send produces: the broadcast path
(`broadcast`) or the unicast path (`sendTo`, which sends the
`prepareBundle` result unchanged). -/
def outboundBundle (chain : ChainType) (t : MsgType) (broadcastPath : Bool) : Option Bundle :=
  if broadcastPath then broadcastBundle chain t else prepareBundle chain t

/-- C5 counterexample: with the chain type `Localnet`, `prepareBundle` sets
neither network flag, so a produced bundle does not have exactly one of the
two network flags set. -/
theorem outboundBundle_localnet_cex :
    ∃ bdl, outboundBundle ChainType.localnet MsgType.queryProposal false = some bdl
      ∧ ¬ (bdl.flags.networkMainnet = true ∨ bdl.flags.networkTestnet = true) := by
  refine ⟨Bundle.mk MsgType.queryProposal
    (BundleFlags.mk true false false false false), by decide, by decide⟩

/-- C5 (amended): every outbound bundle the synchronizer produces on the
unicast or broadcast path has the carrier flag set; it has exactly one of
the two network flags set when the configured chain type is Mainnet or
Testnet (matching the chain), and neither when it is Localnet;
`Broadcasted` is set iff the bundle was produced on the broadcast path; and
`Handshaking` is set iff the message is `Hello` or `HelloAck`. -/
theorem outboundBundle_flags (chain : ChainType) (t : MsgType) (broadcastPath : Bool)
    (bdl : Bundle) (hb : outboundBundle chain t broadcastPath = some bdl) :
    bdl.flags.carrierLibP2P = true
      ∧ (chain = ChainType.mainnet →
          bdl.flags.networkMainnet = true ∧ bdl.flags.networkTestnet = false)
      ∧ (chain = ChainType.testnet →
          bdl.flags.networkTestnet = true ∧ bdl.flags.networkMainnet = false)
      ∧ (chain = ChainType.localnet →
          bdl.flags.networkMainnet = false ∧ bdl.flags.networkTestnet = false)
      ∧ bdl.flags.broadcasted = broadcastPath
      ∧ bdl.flags.handshaking = t.isHandshake := by
  cases chain <;> cases broadcastPath <;>
    simp only [outboundBundle, broadcastBundle, prepareBundle, handlerPrepareBundle,
      if_true, if_false, Bool.false_eq_true, Option.some.injEq] at hb <;>
    subst hb <;>
    simp

/-- Witness for C5 (amended): the Testnet chain on the unicast path, with a
`QueryProposal` message (scenario S8 of the spec). -/
theorem outboundBundle_flags_witness :
    outboundBundle ChainType.testnet MsgType.queryProposal false
        = some (Bundle.mk MsgType.queryProposal (BundleFlags.mk true false true false false))
      ∧ ((Bundle.mk MsgType.queryProposal
            (BundleFlags.mk true false true false false)).flags.carrierLibP2P = true
        ∧ (ChainType.testnet = ChainType.mainnet →
            (Bundle.mk MsgType.queryProposal
                (BundleFlags.mk true false true false false)).flags.networkMainnet = true
              ∧ (Bundle.mk MsgType.queryProposal
                  (BundleFlags.mk true false true false false)).flags.networkTestnet = false)
        ∧ (ChainType.testnet = ChainType.testnet →
            (Bundle.mk MsgType.queryProposal
                (BundleFlags.mk true false true false false)).flags.networkTestnet = true
              ∧ (Bundle.mk MsgType.queryProposal
                  (BundleFlags.mk true false true false false)).flags.networkMainnet = false)
        ∧ (ChainType.testnet = ChainType.localnet →
            (Bundle.mk MsgType.queryProposal
                (BundleFlags.mk true false true false false)).flags.networkMainnet = false
              ∧ (Bundle.mk MsgType.queryProposal
                  (BundleFlags.mk true false true false false)).flags.networkTestnet = false)
        ∧ (Bundle.mk MsgType.queryProposal
            (BundleFlags.mk true false true false false)).flags.broadcasted = false
        ∧ (Bundle.mk MsgType.queryProposal
            (BundleFlags.mk true false true false false)).flags.handshaking
              = MsgType.queryProposal.isHandshake) :=
  ⟨by decide,
    outboundBundle_flags ChainType.testnet MsgType.queryProposal false
      (Bundle.mk MsgType.queryProposal (BundleFlags.mk true false true false false))
      (by decide)⟩

/-!
## Stop (sync.go, lines 113-115) and the two loops

`NewSynchronizer` stores `ctx = context.Background()` (sync.go line 57, with
the comment `TODO, set proper context`). In Go, `ctx.Done()` is an accessor:
it returns the done channel of the context and cancels nothing; for
`context.Background()` the returned channel is nil and is never closed.
Both `receiveLoop` and `broadcastLoop` select on `<-sync.ctx.Done()` and
exit only when that channel is closed.
-/

/-- The observable cancellation state of a Go `context.Context`: whether its
done channel is closed. -/
structure GoContext where
  doneClosed : Bool
deriving DecidableEq

/-- The context `context.Background()`: its done channel is nil and never closed. -/
def contextBackground : GoContext := { doneClosed := false }

/-- The accessor `ctx.Done()` as an effect on the context: it merely returns the done
channel, cancelling nothing, so the context is unchanged. -/
def ctxDone (c : GoContext) : GoContext := c

/-- Shallow embedding of `synchronizer.Stop`: its body is
`sync.ctx.Done()`, whose returned channel is discarded. -/
def stop (c : GoContext) : GoContext := ctxDone c

/-- Whether the select in `receiveLoop`/`broadcastLoop` observes
cancellation and makes the loop return: exactly when the shared done
channel is closed. -/
def loopObservesCancel (c : GoContext) : Bool := c.doneClosed

/-- C6 (code bug): `Stop` on the synchronizer's context
(`context.Background()`) leaves the cancellation signal unclosed, so
neither the receive loop nor the broadcast loop observes it at any later
select — contradicting the claim that `Stop` closes the shared cancellation
signal and both loops exit on the next select. -/
theorem stop_does_not_cancel :
    (stop contextBackground).doneClosed = false
      ∧ loopObservesCancel (stop contextBackground) = false := by
  exact ⟨rfl, rfl⟩

/-!
## processIncomingBundle and the receive loop (sync.go, lines 157-229)

On the wire `message.Type` is an integer, so unknown codes occur; the
handler table is the map built in `NewSynchronizer`, modelled as the set of
registered type codes. `handler.ParseMessage(msg, initiator)` is modelled
by its outcome (`some code` an error). The firewall already ran: `bdl` is
its result, `none` when the bundle was rejected or failed to decode.
-/

/-- An incoming decoded bundle as the dispatcher sees it. -/
structure InBundle where
  initiator : Nat
  msgType : Nat
deriving DecidableEq

/-- The errors the dispatcher produces: `ErrInvalidMessage` for an
unregistered type, or the error a handler's `ParseMessage` returned. -/
inductive SyncError where
  | invalidMessage (t : Nat)
  | parseError (code : Nat)
deriving DecidableEq

/-- Shallow embedding of `synchronizer.processIncomingBundle`: a nil bundle
returns nil; an unregistered message type returns `ErrInvalidMessage`
without dispatching; otherwise the registered handler parses the message.
The result pairs the type dispatched to (if any) with the returned error. -/
def processIncomingBundle (handlers : Nat → Bool) (parse : Nat → Nat → Option Nat)
    (bdl : Option InBundle) : Option Nat × Option SyncError :=
  match bdl with
  | none => (none, none)
  | some b =>
    if handlers b.msgType then
      match parse b.msgType b.initiator with
      | none => (some b.msgType, none)
      | some c => (some b.msgType, some (SyncError.parseError c))
    else
      (none, some (SyncError.invalidMessage b.msgType))

/-- Embedding of `PeerSet.IncreaseInvalidBundlesCounter(pid)` on the per-peer
invalid-bundle counters. -/
def bumpInvalid (counters : Nat → Nat) (pid : Nat) : Nat → Nat :=
  fun q => if q = pid then counters q + 1 else counters q

/-- The gossip/stream arm of `receiveLoop`: process the firewall's bundle,
and when processing returns an error, increase the initiator's
invalid-bundles counter. Returns the updated counters with the process
result. -/
def receiveBundleStep (handlers : Nat → Bool) (parse : Nat → Nat → Option Nat)
    (counters : Nat → Nat) (bdl : Option InBundle) :
    (Nat → Nat) × Option Nat × Option SyncError :=
  let r := processIncomingBundle handlers parse bdl
  match bdl, r.2 with
  | some b, some _ => (bumpInvalid counters b.initiator, r)
  | _, _ => (counters, r)

/-- C7: a non-nil bundle with an unregistered message type yields
`ErrInvalidMessage` and is dispatched to no handler; and whenever
processing a gossip/stream bundle returns an error, the receive loop
increases the initiator's invalid-bundles counter by one. -/
theorem processIncomingBundle_spec (handlers : Nat → Bool)
    (parse : Nat → Nat → Option Nat) :
    (∀ b : InBundle, handlers b.msgType = false →
      processIncomingBundle handlers parse (some b)
        = (none, some (SyncError.invalidMessage b.msgType)))
      ∧ (∀ (counters : Nat → Nat) (bdl : Option InBundle),
          (processIncomingBundle handlers parse bdl).2 ≠ none →
          ∃ b, bdl = some b
            ∧ (receiveBundleStep handlers parse counters bdl).1 b.initiator
                = counters b.initiator + 1) := by
  constructor
  · intro b hreg
    simp [processIncomingBundle, hreg]
  · intro counters bdl hne
    cases bdl with
    | none =>
      simp [processIncomingBundle] at hne
    | some b =>
      refine ⟨b, rfl, ?_⟩
      cases he : (processIncomingBundle handlers parse (some b)).2 with
      | none => exact absurd he hne
      | some e =>
        simp only [receiveBundleStep, he]
        simp [bumpInvalid]

/-- Witness for C7: type code 42 is not among the registered handlers
(codes below 10); the counter of initiator 5 rises from 0 to 1. -/
theorem processIncomingBundle_spec_witness :
    ((fun t => decide (t < 10)) (InBundle.mk 5 42).msgType = false
        ∧ processIncomingBundle (fun t => decide (t < 10)) (fun _ _ => none)
            (some (InBundle.mk 5 42))
          = (none, some (SyncError.invalidMessage (InBundle.mk 5 42).msgType)))
      ∧ ((processIncomingBundle (fun t => decide (t < 10)) (fun _ _ => none)
            (some (InBundle.mk 5 42))).2 ≠ none
        ∧ ∃ b, some (InBundle.mk 5 42) = some b
            ∧ (receiveBundleStep (fun t => decide (t < 10)) (fun _ _ => none)
                (fun _ => 0) (some (InBundle.mk 5 42))).1 b.initiator
              = (fun _ => (0 : Nat)) b.initiator + 1) :=
  ⟨⟨by decide,
      (processIncomingBundle_spec (fun t => decide (t < 10)) (fun _ _ => none)).1
        (InBundle.mk 5 42) (by decide)⟩,
    ⟨by decide,
      (processIncomingBundle_spec (fun t => decide (t < 10)) (fun _ _ => none)).2
        (fun _ => 0) (some (InBundle.mk 5 42)) (by decide)⟩⟩

/-!
## processConnectEvent and sayHello (sync.go, lines 125-143 and 200-210)
-/

/-- The peer-row fields `processConnectEvent` touches. -/
structure PeerRow where
  status : StatusCode
  address : Nat
deriving DecidableEq

/-- A transport connect event (`network.ConnectEvent`). -/
structure ConnectEvent where
  peerID : Nat
  remoteAddress : Nat
  supportStream : Bool
deriving DecidableEq

/-- Modelled from the spec (§4.1): `PeerSet.UpdateStatus(pid, status)` —
an auto-creating, single-row status update. -/
def updateStatus (ps : Nat → PeerRow) (pid : Nat) (st : StatusCode) : Nat → PeerRow :=
  fun q => if q = pid then { ps q with status := st } else ps q

/-- Modelled from the spec (§4.1): `PeerSet.UpdateAddress(pid, addr)`. -/
def updateAddress (ps : Nat → PeerRow) (pid addr : Nat) : Nat → PeerRow :=
  fun q => if q = pid then { ps q with address := addr } else ps q

/-- Shallow embedding of `synchronizer.processConnectEvent`: set the peer's
status to Connected and record its remote address; when the event reports
stream support, `sayHello` sends one Hello message to that peer (a send
failure is only logged). The sent messages are returned as
`(type, target)` pairs. -/
def processConnectEvent (ps : Nat → PeerRow) (ce : ConnectEvent) :
    (Nat → PeerRow) × List (MsgType × Nat) :=
  let ps1 := updateStatus ps ce.peerID StatusCode.connected
  let ps2 := updateAddress ps1 ce.peerID ce.remoteAddress
  if ce.supportStream then
    (ps2, [(MsgType.hello, ce.peerID)])
  else
    (ps2, [])

/-- C8: a Connect event sets the peer's status to Connected and records its
remote address, leaves every other peer row unchanged, sends a Hello to
that peer iff the event reports stream support, and the resulting peer
state does not depend on the stream-support flag. -/
theorem processConnectEvent_spec (ps : Nat → PeerRow) (ce : ConnectEvent) :
    ((processConnectEvent ps ce).1 ce.peerID).status = StatusCode.connected
      ∧ ((processConnectEvent ps ce).1 ce.peerID).address = ce.remoteAddress
      ∧ (∀ pid, pid ≠ ce.peerID → (processConnectEvent ps ce).1 pid = ps pid)
      ∧ (processConnectEvent ps ce).2
          = (if ce.supportStream then [(MsgType.hello, ce.peerID)] else [])
      ∧ (processConnectEvent ps ce).1
          = (processConnectEvent ps (ConnectEvent.mk ce.peerID ce.remoteAddress true)).1 := by
  obtain ⟨pid, addr, s⟩ := ce
  refine ⟨?_, ?_, ?_, ?_, ?_⟩
  · cases s <;> simp [processConnectEvent, updateStatus, updateAddress]
  · cases s <;> simp [processConnectEvent, updateStatus, updateAddress]
  · intro q hq
    cases s <;> simp [processConnectEvent, updateStatus, updateAddress, hq]
  · cases s <;> simp [processConnectEvent]
  · cases s <;> rfl

/-!
## sayHello message contents (sync.go, lines 125-143)
-/

/-- The synchronizer configuration fields `sayHello` reads. -/
structure SyncConfig where
  moniker : String
  nodeNetwork : Bool

/-- The state facade fields `sayHello` reads (hashes as opaque numbers). -/
structure StateView where
  lastBlockHeight : Nat
  lastBlockHash : Nat
  genesisHash : Nat

/-- Modelled from the spec (§3): the `service.Network` bit of the service
bitmask — the capability to serve historical blocks. -/
def serviceNetwork : Nat := 1

/-- Modelled from the spec: `service.New(ids...)` builds the bitmask with
the given service bits set. -/
def serviceNew (ids : List Nat) : Nat :=
  ids.foldl (fun acc i => acc ||| i) 0

/-- Modelled from the spec: `Services.IsNetwork()` tests the Network bit. -/
def isNetworkService (s : Nat) : Bool := decide (s &&& serviceNetwork ≠ 0)

/-- A Hello message as built by `sayHello` (hashes and keys opaque). -/
structure HelloMsg where
  peerID : Nat
  moniker : String
  height : Nat
  services : Nat
  blockHash : Nat
  genesisHash : Nat
  signedBy : List Nat
deriving DecidableEq

/-- Shallow embedding of the message construction in
`synchronizer.sayHello`: the services list holds `service.Network` iff the
`NodeNetwork` configuration flag is set; `message.NewHelloMessage` is
populated from the state facade and the configured moniker; then
`msg.Sign(sync.valKeys)` signs with all configured validator keys. -/
def sayHelloMsg (cfg : SyncConfig) (st : StateView) (valKeys : List Nat) (selfID : Nat) :
    HelloMsg :=
  let services := if cfg.nodeNetwork then [serviceNetwork] else []
  { peerID := selfID
    moniker := cfg.moniker
    height := st.lastBlockHeight
    services := serviceNew services
    blockHash := st.lastBlockHash
    genesisHash := st.genesisHash
    signedBy := valKeys }

/-- C9: every Hello message `sayHello` sends carries the state tip height
and hash and the genesis hash, the configured moniker, a services bitmask
containing the Network service iff the `NodeNetwork` flag is set, and is
signed by all configured validator keys. -/
theorem sayHelloMsg_spec (cfg : SyncConfig) (st : StateView) (valKeys : List Nat)
    (selfID : Nat) :
    (sayHelloMsg cfg st valKeys selfID).height = st.lastBlockHeight
      ∧ (sayHelloMsg cfg st valKeys selfID).blockHash = st.lastBlockHash
      ∧ (sayHelloMsg cfg st valKeys selfID).genesisHash = st.genesisHash
      ∧ (sayHelloMsg cfg st valKeys selfID).moniker = cfg.moniker
      ∧ isNetworkService (sayHelloMsg cfg st valKeys selfID).services = cfg.nodeNetwork
      ∧ (sayHelloMsg cfg st valKeys selfID).signedBy = valKeys := by
  cases hn : cfg.nodeNetwork <;>
    simp [sayHelloMsg, serviceNew, isNetworkService, serviceNetwork, hn]

end Pactus
